import Mathlib

/-
Verification of the gorm-migration-handler repository (migrationhandler.go).

The file embeds, as executable Lean definitions:
  - the migration-file discovery and pairing step (getMigrations),
  - the per-unit transactional execution step (setupMigration),
  - the surrounding run and rollback pipelines (setupManager, RunMigrations,
    RollbackMigration),
  - the dry-run capture filter (getChangesAuto) and the artifact creation
    flow (CreateMigration, generateFiles).

The ledger and execution engine itself (the gormigrate library) is not part
of the repository sources; where its behaviour decides a property it is
modelled from the specification, and each such definition carries a doc
comment saying so.
-/

namespace MigHandler

/-- The migration struct of migrationhandler.go: identifier, human name,
forward SQL batch and rollback SQL batch. The Go zero value has all fields
empty, which is the Inhabited default below. -/
structure Migration where
  id : String
  name : String
  migrationSQL : String
  rollbackSQL : String
deriving DecidableEq, Repr

instance : Inhabited Migration := ⟨⟨"", "", "", ""⟩⟩

/-- One entry of the migrations folder listing, as seen by os.ReadDir plus
os.ReadFile in getMigrations: a file name, whether the entry is a
sub-directory, and the file content, where none models a file whose read
fails (getMigrations prints a warning and skips such an entry). -/
structure DirEntry where
  name : String
  isDir : Bool
  content : Option String
deriving DecidableEq, Repr

/-- strings.Split on the one-character separator, over char lists.
Matches the Go semantics: splitting the empty string yields one empty
component, separators at the ends yield empty components. -/
def splitUnderscore : List Char → List (List Char)
  | [] => [[]]
  | c :: cs =>
    if c = '_' then [] :: splitUnderscore cs
    else
      match splitUnderscore cs with
      | [] => [[c]]
      | g :: gs => (c :: g) :: gs

def strOf (cs : List Char) : String := String.mk cs

/-- Matching of the anchored regular expression `\d+.*_up.sql` used by
getMigrations, in an equivalent direct form: since the `.*` absorbs
everything between the first character and the seven-character tail, a
name matches exactly when its first character is a digit and its remaining
characters end in the tail `_up` followed by any character followed by
`sql`. -/
def matchUp (s : String) : Bool :=
  match s.data with
  | [] => false
  | c :: rest =>
    c.isDigit && decide (7 ≤ rest.length) &&
      ((rest.drop (rest.length - 7)).take 3 == ['_', 'u', 'p'] &&
        (rest.drop (rest.length - 7)).drop 4 == ['s', 'q', 'l'])

/-- Matching of the anchored regular expression `\d+.*_down.sql`, in the
same equivalent direct form as matchUp, with the nine-character tail
`_down` followed by any character followed by `sql`. -/
def matchDown (s : String) : Bool :=
  match s.data with
  | [] => false
  | c :: rest =>
    c.isDigit && decide (9 ≤ rest.length) &&
      ((rest.drop (rest.length - 9)).take 5 == ['_', 'd', 'o', 'w', 'n'] &&
        (rest.drop (rest.length - 9)).drop 6 == ['s', 'q', 'l'])

/-- The filename parsing prefix of the getMigrations loop body:
splitName := strings.Split(fileName, "_"); migrationID := splitName[0];
migrationName := strings.Join(splitName[:2], "_"). Returns the pair
(migrationID, migrationName). When the split has fewer than two components
the Go expression splitName[:2] panics (slice bounds out of range); that
is the none case. -/
def parseKey (name : String) : Option (String × String) :=
  match splitUnderscore name.data with
  | p0 :: p1 :: _ => some (strOf p0, strOf (p0 ++ '_' :: p1))
  | _ => none

/-- The accumulating map of getMigrations, modelled as an association list;
only its key-to-value mapping corresponds to the Go map (Go map iteration
order is unspecified). -/
abbrev MigMap := List (String × Migration)

/-- Go map indexing m[k]: the stored value if the key is present. -/
def lookupM : MigMap → String → Option Migration
  | [], _ => none
  | (k, v) :: rest, key => if key = k then some v else lookupM rest key

/-- Go map assignment m[k] = v: replace in place or append. -/
def upsert : MigMap → String → Migration → MigMap
  | [], k, v => [(k, v)]
  | (k0, v0) :: rest, k, v =>
    if k0 = k then (k0, v) :: rest else (k0, v0) :: upsert rest k v

/-- One iteration of the getMigrations loop over a folder entry, exactly in
the order of the Go code: skip sub-directories, skip entries whose read
fails, parse the name (none propagates the Go panic on names with no
underscore), read the current map value for the grouping key or the zero
Migration, overwrite its id, then store the forward content under
migrationSQL if the name matches the up pattern, the backward content
under rollbackSQL if it matches the down pattern, and otherwise leave the
map unchanged. -/
def processEntry (m : MigMap) (e : DirEntry) : Option MigMap :=
  if e.isDir then some m
  else
    match e.content with
    | none => some m
    | some content =>
      match parseKey e.name with
      | none => none
      | some (mid, key) =>
        let found := (lookupM m key).getD default
        let found := { found with id := mid }
        if matchUp e.name then
          some (upsert m key { found with migrationSQL := content })
        else if matchDown e.name then
          some (upsert m key { found with rollbackSQL := content })
        else some m

/-- The getMigrations loop folded over the folder listing. -/
def buildMap : List DirEntry → MigMap → Option MigMap
  | [], m => some m
  | e :: rest, m =>
    match processEntry m e with
    | none => none
    | some m1 => buildMap rest m1

/-- getMigrations of migrationhandler.go: fold the loop over the listing,
starting from the empty map. none models the Go runtime panic. -/
def getMigrations (entries : List DirEntry) : Option MigMap :=
  buildMap entries []

/-- The database schema state, abstracted as the list of committed SQL
batches in commit order. -/
abbrev Schema := List String

/-- An oracle for SQL execution inside an open transaction: given the
batch and the current committed schema it returns the tentative
transaction-local schema and whether execution succeeded. The code under
verification treats SQL as opaque text, so the oracle is a parameter. -/
abbrev SQLExec := String → Schema → Schema × Bool

/-- The state owned by the target database: committed schema plus the
applied-migration ledger (ids in application order). -/
structure EngineState where
  schema : Schema
  ledger : List String
deriving DecidableEq, Repr

/-- The error kinds the run, rollback and discovery paths can produce. -/
inductive Err where
  | connFailed
  | noMigrations
  | duplicatedID
  | execFailed (id : String)
  | nothingToRollback
  | missingUnit (id : String)
  | crash
deriving DecidableEq, Repr

/-- The user-facing message of each error kind. The connFailed and
noMigrations texts are the literal errors.New strings of setupManager; the
duplicatedID and nothingToRollback texts are the gormigrate messages the
repository test file asserts. -/
def Err.message : Err → String
  | .connFailed => "connection to database failed, can not run migrations"
  | .noMigrations => "no migrations to run"
  | .duplicatedID => "gormigrate: Duplicated migration ID"
  | .execFailed _ => "migration execution failed"
  | .nothingToRollback => "gormigrate: Could not find last run migration"
  | .missingUnit _ => "gormigrate: Missing migration"
  | .crash => "runtime error: slice bounds out of range"

/-- Result of a run or rollback invocation: the database state afterwards,
the ids committed in execution order, the ids for which a transaction was
opened, and the error if any. -/
structure RunResult where
  state : EngineState
  trace : List String
  attempted : List String
  error : Option Err
deriving DecidableEq, Repr

/-- The engine loop over the pending units, in order. The per-unit body is
the Migrate closure of setupMigration in migrationhandler.go: begin a
transaction, execute migrationSQL, on error roll the transaction back
(leaving the committed schema untouched) and abort the whole run, on
success commit. The ledger append for a committed id is the engine
bookkeeping, modelled from the spec: on success append a ledger entry for
that id. -/
def runPending (E : SQLExec) : List Migration → EngineState → RunResult
  | [], st => ⟨st, [], [], none⟩
  | mg :: rest, st =>
    let r := E mg.migrationSQL st.schema
    if r.2 then
      let st1 : EngineState := ⟨r.1, st.ledger ++ [mg.id]⟩
      let res := runPending E rest st1
      ⟨res.state, mg.id :: res.trace, mg.id :: res.attempted, res.error⟩
    else ⟨st, [], [mg.id], some (Err.execFailed mg.id)⟩

/-- Lexicographic comparison of char lists, total order used to sort ids. -/
def charsLe : List Char → List Char → Bool
  | [], _ => true
  | _ :: _, [] => false
  | a :: as, b :: bs => if a = b then charsLe as bs else decide (a < b)

def strLeB (a b : String) : Bool := charsLe a.data b.data

/-- Ascending id order on units. -/
def migLe (a b : Migration) : Prop := strLeB a.id b.id = true

instance : DecidableRel migLe :=
  fun _ _ => inferInstanceAs (Decidable (_ = true))

/-- Sort units ascending by id. Modelled from the spec: the execution
engine determines the pending units sorted ascending by id (the engine
library is not part of the repository sources). -/
def sortMigs (l : List Migration) : List Migration :=
  l.insertionSort migLe

/-- RunMigrations of migrationhandler.go: setupManager opens the
connection (failing fast with the connFailed error), discovers units via
getMigrations (none propagates as a crash), fails with noMigrations when
zero units were discovered, and hands the units to the execution engine.
The engine steps are modelled from the spec: units sharing an id are a
configuration error rejected before any transaction is opened, otherwise
the units absent from the ledger run ascending by id through runPending. -/
def runMigrations (E : SQLExec) (connOk : Bool) (entries : List DirEntry)
    (st : EngineState) : RunResult :=
  if connOk then
    match getMigrations entries with
    | none => ⟨st, [], [], some Err.crash⟩
    | some mm =>
      if mm.isEmpty then ⟨st, [], [], some Err.noMigrations⟩
      else
        let units := mm.map Prod.snd
        if (units.map (fun u => u.id)).Nodup then
          runPending E (sortMigs (units.filter (fun u => !(st.ledger.contains u.id)))) st
        else ⟨st, [], [], some Err.duplicatedID⟩
  else ⟨st, [], [], some Err.connFailed⟩

/-- RollbackMigration of migrationhandler.go: the same setupManager
checks, then the rollback-last engine step. Modelled from the spec: take
the most recently applied ledger id (failing when the ledger is empty),
look the unit up among the discovered units (fatal when missing), execute
its rollbackSQL in one transaction via the Rollback closure of
setupMigration, and on success remove that ledger entry. -/
def rollbackLast (E : SQLExec) (connOk : Bool) (entries : List DirEntry)
    (st : EngineState) : RunResult :=
  if connOk then
    match getMigrations entries with
    | none => ⟨st, [], [], some Err.crash⟩
    | some mm =>
      if mm.isEmpty then ⟨st, [], [], some Err.noMigrations⟩
      else
        match st.ledger.getLast? with
        | none => ⟨st, [], [], some Err.nothingToRollback⟩
        | some lastId =>
          match (mm.map Prod.snd).find? (fun u => u.id == lastId) with
          | none => ⟨st, [], [], some (Err.missingUnit lastId)⟩
          | some u =>
            let r := E u.rollbackSQL st.schema
            if r.2 then ⟨⟨r.1, st.ledger.dropLast⟩, [lastId], [lastId], none⟩
            else ⟨st, [], [lastId], some (Err.execFailed lastId)⟩
  else ⟨st, [], [], some Err.connFailed⟩

/-- The ASCII whitespace characters trimmed before the SELECT test
(strings.TrimSpace; the captured statements are ASCII). -/
def isWSB (c : Char) : Bool :=
  c = ' ' || c = '\t' || c = '\n' || c = '\r'

/-- Trim whitespace from both ends of a char list. -/
def trimChars (cs : List Char) : List Char :=
  ((cs.dropWhile isWSB).reverse.dropWhile isWSB).reverse

/-- The per-line test of the getChangesAuto scanner loop: a captured line
survives unless, after trimming whitespace and upper-casing, it starts
with SELECT. -/
def keepLine (t : String) : Bool :=
  !((trimChars t.data).map Char.toUpper).take 6 == ['S', 'E', 'L', 'E', 'C', 'T']

/-- The accumulation loop of getChangesAuto over the captured dry-run
output lines: lines += text + newline for every surviving line, starting
from the empty string. -/
def getChangesAuto (captured : List String) : String :=
  captured.foldl (fun acc t => if keepLine t then acc ++ t ++ "\n" else acc) ""

/-- Modelled from the spec: the ORM dry-run capability (gorm AutoMigrate
in DryRun mode, not part of the repository sources) emits, per declared
model, the DDL lines it would execute; with no declared models it emits
nothing. The per-model emission is the oracle ddlOf. -/
def ormDryRun (ddlOf : String → List String) (models : List String) : List String :=
  models.flatMap ddlOf

/-- The migrationTemplate constant of migrationhandler.go rendered by
text/template: the fixed header comment line, a newline, then the SQL body
verbatim. -/
def renderTemplate (sql : String) : String :=
  "-- Write your SQL command here\n" ++ sql

/-- Result of CreateMigration: the messages printed to the side channel,
the artifact files written as (path, content) pairs, and the returned
error if any. -/
structure CreateResult where
  notices : List String
  files : List (String × String)
  error : Option String
deriving DecidableEq, Repr

/-- CreateMigration plus generateFiles of migrationhandler.go. When the
connection fails the auto migration is skipped with a printed notice and
the forward body stays empty; otherwise the dry-run capture provides the
forward body, with a printed notice when it is empty. generateFiles then
fails without writing anything when the folder does not exist (folderOk is
the os.ReadDir check), and otherwise writes the up artifact with the
rendered forward body and the down artifact with the rendered empty body
(CreateMigration never assigns rollbackSQL). mid is the Unix timestamp id
the code takes from the clock. -/
def createMigration (ddlOf : String → List String) (connOk : Bool)
    (models : List String) (folderOk : Bool) (path mid name : String) :
    CreateResult :=
  let diff := if connOk then getChangesAuto (ormDryRun ddlOf models) else ("")
  let notices :=
    if connOk then
      if diff = "" then ["No auto changes found."] else []
    else ["Database connection failed skipping auto migration"]
  if folderOk then
    { notices := notices ++ ["Migration " ++ name ++ " created successfully."],
      files := [(path ++ "/" ++ mid ++ "_" ++ name ++ "_up.sql", renderTemplate diff),
                (path ++ "/" ++ mid ++ "_" ++ name ++ "_down.sql", renderTemplate (""))],
      error := none }
  else { notices := notices, files := [], error := some ("could not find dir " ++ path) }

/-- A SQL oracle under which every batch succeeds and is appended to the
schema, used for concrete scenarios. -/
def execOK : SQLExec := fun s sch => (sch ++ [s], true)

/-- A three-unit folder listing (ids 1, 2, 3) discovered out of id order. -/
def demo3 : List DirEntry :=
  [⟨"2_b_up.sql", false, some ("B")⟩,
   ⟨"3_c_up.sql", false, some ("C")⟩,
   ⟨"1_a_up.sql", false, some ("A")⟩]

/-- The slot a folder entry writes in the accumulating map: its grouping
key and direction (true for forward), or none when the entry writes
nothing (sub-directory, unreadable, non-matching or panicking name). -/
def writeSlot (e : DirEntry) : Option (String × Bool) :=
  if e.isDir then none
  else
    match e.content with
    | none => none
    | some _ =>
      match parseKey e.name with
      | none => none
      | some (_, key) =>
        if matchUp e.name then some (key, true)
        else if matchDown e.name then some (key, false)
        else none

/-- An entry on which the getMigrations loop body panics: a readable
regular file whose name has no underscore. -/
def panics (e : DirEntry) : Bool :=
  !e.isDir && e.content.isSome && (parseKey e.name).isNone

/-- Two folder entries may be reordered freely when at least one writes
nothing, or they write different slots, or they are the same entry. -/
def SlotDisjoint (a b : DirEntry) : Prop :=
  writeSlot a = none ∨ writeSlot b = none ∨ writeSlot a ≠ writeSlot b ∨ a = b

instance (a b : DirEntry) : Decidable (SlotDisjoint a b) :=
  inferInstanceAs (Decidable (_ ∨ _ ∨ _ ∨ _))

/-- Equality of discovery results up to the key-to-value mapping (the Go
map); a panic on one side must be a panic on the other. -/
def OptMapEquiv : Option MigMap → Option MigMap → Prop
  | none, none => True
  | some m1, some m2 => ∀ k, lookupM m1 k = lookupM m2 k
  | _, _ => False

/-- The effect of one non-panicking loop iteration on the abstract
key-to-value mapping: entries that write nothing leave the mapping
unchanged, a writing entry overwrites the id and one direction field of
the value stored at its key (starting from the zero Migration when the
key is new). -/
def procLook (F : String → Option Migration) (e : DirEntry) (j : String) :
    Option Migration :=
  match writeSlot e with
  | none => F j
  | some (key, dir) =>
    if j = key then
      let old := (F key).getD default
      let c := e.content.getD ("")
      let mid := ((parseKey e.name).getD ("", "")).1
      some (if dir then { old with id := mid, migrationSQL := c }
            else { old with id := mid, rollbackSQL := c })
    else F j

/-- Fold the getMigrations loop from an already-computed intermediate
result. -/
def buildFrom (om : Option MigMap) (l : List DirEntry) : Option MigMap :=
  match om with
  | none => none
  | some m => buildMap l m

/-- Declarative reading of the capture filter, for comparison with the
accumulation loop getChangesAuto: keep exactly the surviving lines, each
terminated by a newline, concatenated in order. -/
def selectFiltered (ls : List String) : String :=
  (ls.filter keepLine).foldr (fun t acc => t ++ "\n" ++ acc) ""

/-- The state reached after committing a list of units in order: each
commit makes the transaction-local schema visible and appends the id to
the ledger. -/
def commitFold (E : SQLExec) (st : EngineState) (l : List Migration) : EngineState :=
  l.foldl (fun s mg => ⟨(E mg.migrationSQL s.schema).1, s.ledger ++ [mg.id]⟩) st

theorem str_append_assoc : ∀ a b c : String, a ++ b ++ c = a ++ (b ++ c)
  | ⟨as⟩, ⟨bs⟩, ⟨cs⟩ => congrArg String.mk (List.append_assoc as bs cs)

theorem str_append_nil : ∀ a : String, a ++ "" = a
  | ⟨as⟩ => congrArg String.mk (List.append_nil as)

theorem getChangesAuto_go (ls : List String) :
    ∀ acc : String,
      ls.foldl (fun acc t => if keepLine t then acc ++ t ++ "\n" else acc) acc =
        acc ++ selectFiltered ls := by
  induction ls with
  | nil => intro acc; simp [selectFiltered, str_append_nil]
  | cons t r ih =>
    intro acc
    by_cases h : keepLine t
    · simp only [List.foldl_cons, h, if_pos, selectFiltered, List.filter_cons,
        List.foldr_cons]
      rw [ih (acc ++ t ++ "\n")]
      simp only [selectFiltered]
      rw [str_append_assoc (acc ++ t), str_append_assoc acc t,
        str_append_assoc t ("\n")]
    · simp only [List.foldl_cons, h, if_neg, Bool.false_eq_true, not_false_iff,
        selectFiltered, List.filter_cons]
      rw [ih acc]
      simp [selectFiltered, h]

theorem str_nil_append : ∀ a : String, "" ++ a = a
  | ⟨as⟩ => congrArg String.mk (List.nil_append as)

/-- C7: the schema-diff capture getChangesAuto returns exactly the
captured dry-run output lines, each terminated by a newline, with every
line that begins (case-insensitively, after trimming whitespace) with the
token SELECT removed, and returns the empty string when no lines survive
the filter. -/
theorem getChangesAuto_select_filter (ls : List String) :
    getChangesAuto ls = selectFiltered ls ∧
      (ls.filter keepLine = [] → getChangesAuto ls = "") := by
  have h : getChangesAuto ls = "" ++ selectFiltered ls := getChangesAuto_go ls ("")
  rw [str_nil_append] at h
  refine ⟨h, fun hf => ?_⟩
  rw [h]
  simp [selectFiltered, hf]

/-- Witness for C7: on a capture consisting only of introspection lines
the filter removes everything and the result is the empty string. -/
theorem getChangesAuto_select_filter_witness :
    getChangesAuto ["SELECT 1", "  select 2"] = "" :=
  (getChangesAuto_select_filter (["SELECT 1", "  select 2"])).2 (by decide)

/-- C9: for a migrations folder path that does not exist, CreateMigration
fails with an error naming that exact path and writes no files; the folder
is never created implicitly. Concretely at path ./missing. -/
theorem createMigration_missing_folder :
    (∀ (ddlOf : String → List String) (connOk : Bool) (models : List String)
        (path mid name : String),
        (createMigration ddlOf connOk models false path mid name).error =
            some ("could not find dir " ++ path) ∧
          (createMigration ddlOf connOk models false path mid name).files = []) ∧
      (createMigration (fun _ => []) true [] false ("./missing") ("17") ("m")).error =
          some ("could not find dir ./missing") ∧
      (createMigration (fun _ => []) true [] false ("./missing") ("17") ("m")).files = [] := by
  refine ⟨fun ddlOf connOk models path mid name => ⟨?_, ?_⟩, by decide, by decide⟩
  · simp [createMigration]
  · simp [createMigration]

/-- C10: every successful CreateMigration writes the rollback artifact
with an empty SQL body, that is the template header line and its trailing
newline only, regardless of the declared models, the diff result or
database reachability: creation never generates rollback SQL. -/
theorem createMigration_down_empty :
    ∀ (ddlOf : String → List String) (connOk : Bool) (models : List String)
      (path mid name : String),
      (createMigration ddlOf connOk models true path mid name).error = none ∧
        (createMigration ddlOf connOk models true path mid name).files.getLast? =
          some (path ++ "/" ++ mid ++ "_" ++ name ++ "_down.sql",
            "-- Write your SQL command here\n") := by
  intro ddlOf connOk models path mid name
  constructor
  · simp [createMigration]
  · simp [createMigration, renderTemplate, str_append_nil]

/-- C8: an empty declared model list or an unreachable database leaves
CreateMigration successful, with the diff degraded to the empty string,
both artifact bodies reduced to the template header, and the caller
notified only through the printed side channel; the same connection
failure is fatal for RunMigrations and RollbackMigration with the stable
connection-failed message. -/
theorem createMigration_soft_vs_run_fatal :
    (∀ (ddlOf : String → List String) (models : List String) (path mid name : String),
        (createMigration ddlOf false models true path mid name).error = none ∧
          (createMigration ddlOf false models true path mid name).files.map Prod.snd =
            ["-- Write your SQL command here\n", "-- Write your SQL command here\n"] ∧
          (createMigration ddlOf false models true path mid name).notices =
            ["Database connection failed skipping auto migration",
             "Migration " ++ name ++ " created successfully."]) ∧
      (∀ (ddlOf : String → List String) (connOk : Bool) (path mid name : String),
          (createMigration ddlOf connOk [] true path mid name).error = none ∧
            (createMigration ddlOf connOk [] true path mid name).files.map Prod.snd =
              ["-- Write your SQL command here\n", "-- Write your SQL command here\n"]) ∧
      (∀ (E : SQLExec) (entries : List DirEntry) (st : EngineState),
          (runMigrations E false entries st).error = some Err.connFailed ∧
            (rollbackLast E false entries st).error = some Err.connFailed ∧
            (runMigrations E false entries st).state = st) ∧
      Err.message Err.connFailed = "connection to database failed, can not run migrations" := by
  refine ⟨?_, ?_, ?_, rfl⟩
  · intro ddlOf models path mid name
    refine ⟨?_, ?_, ?_⟩ <;> simp [createMigration, renderTemplate, str_append_nil]
  · intro ddlOf connOk path mid name
    cases connOk <;>
      refine ⟨?_, ?_⟩ <;>
        simp [createMigration, renderTemplate, str_append_nil, ormDryRun,
          getChangesAuto]
  · intro E entries st
    refine ⟨?_, ?_, ?_⟩ <;> simp [runMigrations, rollbackLast]

theorem commitFold_nil (E : SQLExec) (st : EngineState) :
    commitFold E st [] = st := rfl

theorem commitFold_cons (E : SQLExec) (st : EngineState) (mg : Migration)
    (l : List Migration) :
    commitFold E st (mg :: l) =
      commitFold E ⟨(E mg.migrationSQL st.schema).1, st.ledger ++ [mg.id]⟩ l := rfl

/-- C2: the engine loop processes each pending unit in one transaction:
there is a k such that the first k units were each executed and committed
(with a ledger entry appended per id, in order), and either all units went
through with no error, or unit k failed inside its transaction, the run
aborted with that unit contributing nothing to the visible state, and the
units committed in earlier iterations of the same call remain committed. -/
theorem runPending_transactional (E : SQLExec) :
    ∀ (units : List Migration) (st : EngineState),
      ∃ k, k ≤ units.length ∧
        (runPending E units st).state = commitFold E st (units.take k) ∧
        (runPending E units st).trace = (units.take k).map (fun mg => mg.id) ∧
        (runPending E units st).state.ledger =
          st.ledger ++ (units.take k).map (fun mg => mg.id) ∧
        ((k = units.length ∧ (runPending E units st).error = none ∧
            (runPending E units st).attempted =
              (units.take k).map (fun mg => mg.id)) ∨
          (∃ mg rest, units.drop k = mg :: rest ∧
            (E mg.migrationSQL (commitFold E st (units.take k)).schema).2 = false ∧
            (runPending E units st).error = some (Err.execFailed mg.id) ∧
            (runPending E units st).attempted =
              (units.take k).map (fun mg => mg.id) ++ [mg.id])) := by
  intro units
  induction units with
  | nil =>
    intro st
    refine ⟨0, Nat.le_refl 0, ?_, ?_, ?_, Or.inl ⟨rfl, ?_, ?_⟩⟩ <;>
      simp [runPending, commitFold]
  | cons mg rest ih =>
    intro st
    by_cases hr : (E mg.migrationSQL st.schema).2 = true
    · have hrun : runPending E (mg :: rest) st =
          ⟨(runPending E rest ⟨(E mg.migrationSQL st.schema).1,
              st.ledger ++ [mg.id]⟩).state,
            mg.id :: (runPending E rest ⟨(E mg.migrationSQL st.schema).1,
              st.ledger ++ [mg.id]⟩).trace,
            mg.id :: (runPending E rest ⟨(E mg.migrationSQL st.schema).1,
              st.ledger ++ [mg.id]⟩).attempted,
            (runPending E rest ⟨(E mg.migrationSQL st.schema).1,
              st.ledger ++ [mg.id]⟩).error⟩ := by
        simp [runPending, hr]
      obtain ⟨k, hk, hstate, htrace, hledger, hdisj⟩ :=
        ih ⟨(E mg.migrationSQL st.schema).1, st.ledger ++ [mg.id]⟩
      refine ⟨k + 1, Nat.succ_le_succ hk, ?_, ?_, ?_, ?_⟩
      · rw [hrun, List.take_succ_cons, commitFold_cons]
        exact hstate
      · rw [hrun, List.take_succ_cons, List.map_cons]
        simp only [RunResult.mk.injEq] at hrun ⊢
        exact congrArg (mg.id :: ·) htrace
      · rw [hrun, List.take_succ_cons, List.map_cons]
        show (runPending E rest _).state.ledger = st.ledger ++ (mg.id :: _)
        rw [hledger]
        simp
      · rcases hdisj with ⟨hkl, herr, hatt⟩ | ⟨mg2, rest2, hdrop, hfail, herr, hatt⟩
        · refine Or.inl ⟨by simp [hkl], ?_, ?_⟩
          · rw [hrun]; exact herr
          · rw [hrun, List.take_succ_cons, List.map_cons]
            exact congrArg (mg.id :: ·) hatt
        · refine Or.inr ⟨mg2, rest2, ?_, ?_, ?_, ?_⟩
          · rw [List.drop_succ_cons]; exact hdrop
          · rw [List.take_succ_cons, commitFold_cons]; exact hfail
          · rw [hrun]; exact herr
          · rw [hrun, List.take_succ_cons, List.map_cons]
            rw [hatt]
            simp
    · have hr2 : (E mg.migrationSQL st.schema).2 = false := by
        simpa using hr
      have hrun : runPending E (mg :: rest) st =
          ⟨st, [], [mg.id], some (Err.execFailed mg.id)⟩ := by
        simp [runPending, hr2]
      refine ⟨0, Nat.zero_le _, ?_, ?_, ?_,
        Or.inr ⟨mg, rest, rfl, ?_, ?_, ?_⟩⟩
      · rw [hrun]; simp [commitFold]
      · rw [hrun]; simp
      · rw [hrun]; simp
      · simpa [commitFold] using hr2
      · rw [hrun]
      · rw [hrun]; simp

/-- C3: two discovered units sharing the same id make the run fail with
the duplicate-identifier error before any transaction is opened: for every
SQL oracle the database state is returned untouched, nothing is executed
and nothing is attempted. -/
theorem runMigrations_duplicate_id_rejected (E : SQLExec)
    (entries : List DirEntry) (st : EngineState) (mm : MigMap)
    (h1 : getMigrations entries = some mm)
    (h2 : ¬ ((mm.map Prod.snd).map (fun u => u.id)).Nodup) :
    runMigrations E true entries st = ⟨st, [], [], some Err.duplicatedID⟩ ∧
      Err.message Err.duplicatedID = "gormigrate: Duplicated migration ID" := by
  have hne : mm.isEmpty = false := by
    cases mm with
    | nil => exact absurd (by simp) h2
    | cons a l => rfl
  have h2a : ¬ (mm.map ((fun u => u.id) ∘ Prod.snd)).Nodup := by
    rw [← List.map_map]; exact h2
  exact ⟨by simp [runMigrations, h1, hne, h2a], rfl⟩

/-- Witness for C3: a folder with 1_a_up.sql and 1_b_up.sql yields two
units with id 1, and the run is rejected with no effect. -/
theorem runMigrations_duplicate_id_rejected_witness :
    runMigrations execOK true
        [⟨"1_a_up.sql", false, some ("A")⟩, ⟨"1_b_up.sql", false, some ("B")⟩]
        ⟨[], []⟩ =
      ⟨⟨[], []⟩, [], [], some Err.duplicatedID⟩ :=
  (runMigrations_duplicate_id_rejected execOK
    ([⟨"1_a_up.sql", false, some ("A")⟩, ⟨"1_b_up.sql", false, some ("B")⟩])
    ⟨[], []⟩
    ([("1_a", ⟨"1", "", "A", ""⟩), ("1_b", ⟨"1", "", "B", ""⟩)])
    (by decide) (by decide)).1

/-- C4 (amended): when discovery yields zero migration units — no readable
regular entry matches either direction suffix, in particular for an empty
folder — the run fails with the distinct no-migrations error and the
ledger is unchanged; this is not treated as success. -/
theorem runMigrations_zero_units_error (E : SQLExec) (entries : List DirEntry)
    (st : EngineState) (h : getMigrations entries = some []) :
    runMigrations E true entries st = ⟨st, [], [], some Err.noMigrations⟩ ∧
      Err.message Err.noMigrations = "no migrations to run" :=
  ⟨by simp [runMigrations, h], rfl⟩

/-- Witness for C4 at the empty folder. -/
theorem runMigrations_zero_units_error_witness :
    runMigrations execOK true [] ⟨[], []⟩ =
      ⟨⟨[], []⟩, [], [], some Err.noMigrations⟩ :=
  (runMigrations_zero_units_error execOK [] ⟨[], []⟩ (by decide)).1

/-- C4 counterexample: a folder holding only the forward half of one unit
has zero complete units, yet the run does not fail with the no-migrations
error — the incomplete unit (empty rollback half) runs and is committed. -/
theorem runMigrations_zero_complete_units_cex :
    getMigrations [⟨"1_a_up.sql", false, some ("A")⟩] =
        some [("1_a", ⟨"1", "", "A", ""⟩)] ∧
      (runMigrations execOK true [⟨"1_a_up.sql", false, some ("A")⟩]
          ⟨[], []⟩).error = none ∧
      (runMigrations execOK true [⟨"1_a_up.sql", false, some ("A")⟩]
          ⟨[], []⟩).state.ledger = ["1"] := by decide

/-- C6: discovery skips sub-directories, skips unreadable files without
aborting, and ignores non-matching names that contain an underscore; but a
readable regular file whose name has no underscore makes the loop panic
(slice bounds out of range, from splitName[:2]) before the direction
filters are consulted, instead of being ignored. -/
theorem getMigrations_skip_and_crash :
    getMigrations [⟨"README", true, none⟩] = some [] ∧
      getMigrations [⟨"README", false, none⟩] = some [] ∧
      getMigrations [⟨"notes_txt.md", false, some ("x")⟩] = some [] ∧
      getMigrations
          [⟨"1_a_up.sql", false, some ("S")⟩, ⟨"x_y.txt", false, some ("z")⟩] =
        some [("1_a", ⟨"1", "", "S", ""⟩)] ∧
      getMigrations [⟨"README", false, some ("x")⟩] = none := by decide

theorem charsLe_total : ∀ as bs : List Char,
    charsLe as bs = true ∨ charsLe bs as = true := by
  intro as
  induction as with
  | nil => intro bs; left; rfl
  | cons a as ih =>
    intro bs
    cases bs with
    | nil => right; rfl
    | cons b bs =>
      by_cases hab : a = b
      · subst hab
        rcases ih bs with h | h
        · left; simpa [charsLe] using h
        · right; simpa [charsLe] using h
      · rcases lt_or_gt_of_ne hab with h | h
        · left; simp [charsLe, hab, h]
        · right; simp [charsLe, Ne.symm hab, h]

theorem charsLe_trans : ∀ as bs cs : List Char,
    charsLe as bs = true → charsLe bs cs = true → charsLe as cs = true := by
  intro as
  induction as with
  | nil => intro bs cs _ _; rfl
  | cons a as ih =>
    intro bs cs h1 h2
    cases bs with
    | nil => simp [charsLe] at h1
    | cons b bs =>
      cases cs with
      | nil => simp [charsLe] at h2
      | cons c cs =>
        by_cases hab : a = b <;> by_cases hbc : b = c
        · subst hab; subst hbc
          simp only [charsLe, if_pos rfl] at h1 h2 ⊢
          exact ih bs cs h1 h2
        · subst hab
          simp only [charsLe, if_pos rfl, if_neg hbc] at h2 ⊢
          simp [hbc, h2]
        · subst hbc
          simp only [charsLe, if_neg hab] at h1 ⊢
          exact h1
        · simp only [charsLe, if_neg hab, if_neg hbc,
            decide_eq_true_eq] at h1 h2
          have hac : a < c := lt_trans h1 h2
          have hne : a ≠ c := ne_of_lt hac
          simp [charsLe, hne, hac]

theorem strLeB_total (a b : String) : strLeB a b = true ∨ strLeB b a = true :=
  charsLe_total a.data b.data

theorem strLeB_trans (a b c : String) (h1 : strLeB a b = true)
    (h2 : strLeB b c = true) : strLeB a c = true :=
  charsLe_trans a.data b.data c.data h1 h2

instance : IsTotal Migration migLe := ⟨fun a b => strLeB_total a.id b.id⟩

instance : IsTrans Migration migLe :=
  ⟨fun a b c h1 h2 => strLeB_trans a.id b.id c.id h1 h2⟩

theorem sortMigs_sorted (l : List Migration) :
    (sortMigs l).Pairwise migLe :=
  List.sorted_insertionSort migLe l

theorem runPending_trace_sublist (E : SQLExec) :
    ∀ (l : List Migration) (st : EngineState),
      ((runPending E l st).trace).Sublist (l.map (fun mg => mg.id)) := by
  intro l
  induction l with
  | nil => intro st; simp [runPending]
  | cons mg rest ih =>
    intro st
    by_cases hr : (E mg.migrationSQL st.schema).2 = true
    · simpa [runPending, hr] using (ih _).cons₂ mg.id
    · have hr2 : (E mg.migrationSQL st.schema).2 = false := by simpa using hr
      simp [runPending, hr2]

theorem runMigrations_trace_cases (E : SQLExec) (connOk : Bool)
    (entries : List DirEntry) (st : EngineState) :
    (runMigrations E connOk entries st).trace = [] ∨
      ∃ pl, (runMigrations E connOk entries st).trace =
        (runPending E (sortMigs pl) st).trace := by
  unfold runMigrations
  dsimp only
  split
  · split
    · exact Or.inl rfl
    · split
      · exact Or.inl rfl
      · split
        · exact Or.inr ⟨_, rfl⟩
        · exact Or.inl rfl
  · exact Or.inl rfl

/-- C1: the execution trace of a run is always ascending in id order, for
the concrete units with ids 1, 2 and 3 any discovery order of the folder
produces the execution order 1, 2, 3, and rollback-last on the resulting
ledger removes 3 first. -/
theorem runMigrations_ascending_rollback_last :
    (∀ (E : SQLExec) (connOk : Bool) (entries : List DirEntry) (st : EngineState),
        ((runMigrations E connOk entries st).trace).Pairwise
          (fun a b => strLeB a b = true)) ∧
      (∀ l : List DirEntry, l.Perm demo3 →
          (runMigrations execOK true l ⟨[], []⟩).trace = ["1", "2", "3"] ∧
            (runMigrations execOK true l ⟨[], []⟩).state.ledger = ["1", "2", "3"]) ∧
      ((rollbackLast execOK true demo3 ⟨["A", "B", "C"], ["1", "2", "3"]⟩).attempted =
          ["3"] ∧
        (rollbackLast execOK true demo3
            ⟨["A", "B", "C"], ["1", "2", "3"]⟩).state.ledger = ["1", "2"]) := by
  refine ⟨?_, ?_, by decide⟩
  · intro E connOk entries st
    rcases runMigrations_trace_cases E connOk entries st with h | ⟨pl, h⟩
    · rw [h]; exact List.Pairwise.nil
    · rw [h]
      have hs : ((sortMigs pl).map (fun mg => mg.id)).Pairwise
          (fun a b => strLeB a b = true) := by
        rw [List.pairwise_map]
        exact sortMigs_sorted pl
      exact hs.sublist (runPending_trace_sublist E _ st)
  · intro l p
    have hn : l.Nodup := p.symm.nodup (by decide)
    have hlen : l.length = 3 := by rw [p.length_eq]; rfl
    obtain ⟨a, b, c, rfl⟩ := List.length_eq_three.mp hlen
    have ha : a ∈ demo3 := p.subset (by simp)
    have hb : b ∈ demo3 := p.subset (by simp)
    have hc : c ∈ demo3 := p.subset (by simp)
    simp only [demo3, List.mem_cons, List.not_mem_nil, or_false] at ha hb hc
    rcases ha with rfl | rfl | rfl <;> rcases hb with rfl | rfl | rfl <;>
      rcases hc with rfl | rfl | rfl <;> revert hn <;> decide

/-- Witness for C1: a folder listing the three units in the order 3, 1, 2
still executes them as 1, 2, 3. -/
theorem runMigrations_ascending_rollback_last_witness :
    (runMigrations execOK true
        [⟨"3_c_up.sql", false, some ("C")⟩, ⟨"1_a_up.sql", false, some ("A")⟩,
         ⟨"2_b_up.sql", false, some ("B")⟩] ⟨[], []⟩).trace = ["1", "2", "3"] :=
  (runMigrations_ascending_rollback_last.2.1
    ([⟨"3_c_up.sql", false, some ("C")⟩, ⟨"1_a_up.sql", false, some ("A")⟩,
      ⟨"2_b_up.sql", false, some ("B")⟩]) (by decide)).1

theorem lookupM_upsert_self : ∀ (m : MigMap) (k : String) (v : Migration),
    lookupM (upsert m k v) k = some v := by
  intro m k v
  induction m with
  | nil => simp [upsert, lookupM]
  | cons p rest ih =>
    obtain ⟨k0, v0⟩ := p
    by_cases h : k0 = k
    · subst h; simp [upsert, lookupM]
    · simp [upsert, lookupM, h, Ne.symm h, ih]

theorem lookupM_upsert_ne : ∀ (m : MigMap) (k : String) (v : Migration)
    (j : String), j ≠ k → lookupM (upsert m k v) j = lookupM m j := by
  intro m k v j hj
  induction m with
  | nil => simp [upsert, lookupM, hj]
  | cons p rest ih =>
    obtain ⟨k0, v0⟩ := p
    by_cases h : k0 = k
    · subst h
      simp [upsert, lookupM, hj]
    · by_cases hj0 : j = k0
      · subst hj0; simp [upsert, lookupM, h]
      · simp [upsert, lookupM, h, hj0, ih]

theorem panics_processEntry_none (e : DirEntry) (h : panics e = true) :
    ∀ m : MigMap, processEntry m e = none := by
  intro m
  rcases e with ⟨name, isDir, content⟩
  simp only [panics, Bool.and_eq_true, Bool.not_eq_true'] at h
  obtain ⟨⟨hd, hs⟩, hp⟩ := h
  subst hd
  cases content with
  | none => simp at hs
  | some c =>
    have hpk : parseKey name = none := Option.isNone_iff_eq_none.mp hp
    simp [processEntry, hpk]

theorem processEntry_isSome_of_not_panics (e : DirEntry) (h : panics e = false) :
    ∀ m : MigMap, (processEntry m e).isSome := by
  intro m
  rcases e with ⟨name, isDir, content⟩
  cases isDir with
  | true => simp [processEntry]
  | false =>
    cases content with
    | none => simp [processEntry]
    | some c =>
      cases hpk : parseKey name with
      | none => simp [panics, hpk] at h
      | some p =>
        obtain ⟨mid, key⟩ := p
        by_cases hu : matchUp name
        · simp [processEntry, hpk, hu]
        · by_cases hd : matchDown name
          · simp [processEntry, hpk, hu, hd]
          · simp [processEntry, hpk, hu, hd]

theorem lookupM_processEntry (e : DirEntry) (m m1 : MigMap)
    (h : processEntry m e = some m1) :
    ∀ j, lookupM m1 j = procLook (lookupM m) e j := by
  intro j
  rcases e with ⟨name, isDir, content⟩
  cases isDir with
  | true =>
    simp only [processEntry, if_true] at h
    rw [Option.some.injEq] at h
    subst h
    simp [procLook, writeSlot]
  | false =>
    cases content with
    | none =>
      simp [processEntry] at h
      subst h
      simp [procLook, writeSlot]
    | some c =>
      cases hpk : parseKey name with
      | none => simp [processEntry, hpk] at h
      | some p =>
        obtain ⟨mid, key⟩ := p
        by_cases hu : matchUp name
        · simp [processEntry, hpk, hu] at h
          subst h
          simp only [procLook, writeSlot, hpk, hu, Bool.false_eq_true,
            if_neg, if_false, if_true, if_pos]
          by_cases hj : j = key
          · subst hj
            rw [lookupM_upsert_self]
            simp
          · rw [lookupM_upsert_ne _ _ _ _ hj]
            simp [hj]
        · by_cases hd : matchDown name
          · simp [processEntry, hpk, hu, hd] at h
            subst h
            simp only [procLook, writeSlot, hpk, hu, hd, Bool.false_eq_true,
              if_neg, if_false, if_true, if_pos]
            by_cases hj : j = key
            · subst hj
              rw [lookupM_upsert_self]
              simp
            · rw [lookupM_upsert_ne _ _ _ _ hj]
              simp [hj]
          · simp [processEntry, hpk, hu, hd] at h
            subst h
            simp [procLook, writeSlot, hpk, hu, hd]

theorem splitUnderscore_ne_nil : ∀ cs : List Char, splitUnderscore cs ≠ [] := by
  intro cs
  cases cs with
  | nil => simp [splitUnderscore]
  | cons c cs =>
    by_cases h : c = '_'
    · simp [splitUnderscore, h]
    · simp only [splitUnderscore, h, if_neg, if_false]
      cases splitUnderscore cs <;> simp

theorem splitUnderscore_no_underscore :
    ∀ (cs : List Char) (p : List Char), p ∈ splitUnderscore cs → '_' ∉ p := by
  intro cs
  induction cs with
  | nil =>
    intro p hp
    simp [splitUnderscore] at hp
    simp [hp]
  | cons c cs ih =>
    intro p hp
    by_cases h : c = '_'
    · simp only [splitUnderscore, h, if_pos, List.mem_cons] at hp
      rcases hp with rfl | hp
      · simp
      · exact ih p hp
    · simp only [splitUnderscore, h, if_neg, if_false] at hp
      cases hg : splitUnderscore cs with
      | nil => exact absurd hg (splitUnderscore_ne_nil cs)
      | cons g gs =>
        rw [hg] at hp
        rcases List.mem_cons.mp hp with rfl | hp
        · intro hmem
          rcases List.mem_cons.mp hmem with rfl | hmem
          · exact h rfl
          · exact ih g (hg ▸ List.mem_cons_self g gs) hmem
        · exact ih p (hg ▸ List.mem_cons.mpr (Or.inr hp))

theorem append_underscore_inj :
    ∀ (a b x y : List Char), '_' ∉ a → '_' ∉ b →
      a ++ '_' :: x = b ++ '_' :: y → a = b := by
  intro a
  induction a with
  | nil =>
    intro b x y _ hb h
    cases b with
    | nil => rfl
    | cons c bs =>
      simp only [List.nil_append, List.cons_append, List.cons.injEq] at h
      exact absurd (List.mem_cons.mpr (Or.inl h.1)) hb
  | cons c as ih =>
    intro b x y ha hb h
    cases b with
    | nil =>
      simp only [List.cons_append, List.nil_append, List.cons.injEq] at h
      exact absurd (List.mem_cons.mpr (Or.inl h.1.symm)) ha
    | cons d bs =>
      simp only [List.cons_append, List.cons.injEq] at h
      have ha' : '_' ∉ as := fun hm => ha (List.mem_cons.mpr (Or.inr hm))
      have hb' : '_' ∉ bs := fun hm => hb (List.mem_cons.mpr (Or.inr hm))
      rw [h.1, ih bs x y ha' hb' h.2]

theorem parseKey_shape (n mid key : String)
    (h : parseKey n = some (mid, key)) :
    ∃ p1, key.data = mid.data ++ '_' :: p1 ∧ '_' ∉ mid.data := by
  unfold parseKey at h
  cases hs : splitUnderscore n.data with
  | nil => rw [hs] at h; simp at h
  | cons p0 rest =>
    cases rest with
    | nil => rw [hs] at h; simp at h
    | cons p1 rest2 =>
      rw [hs] at h
      simp only [Option.some.injEq, Prod.mk.injEq] at h
      obtain ⟨h1, h2⟩ := h
      refine ⟨p1, ?_, ?_⟩
      · rw [← h1, ← h2]
        rfl
      · rw [← h1]
        exact splitUnderscore_no_underscore n.data p0
          (hs ▸ List.mem_cons_self p0 (p1 :: rest2))

theorem parseKey_same_key (n1 n2 m1 m2 k : String)
    (h1 : parseKey n1 = some (m1, k)) (h2 : parseKey n2 = some (m2, k)) :
    m1 = m2 := by
  obtain ⟨p1, hk1, hm1⟩ := parseKey_shape n1 m1 k h1
  obtain ⟨p2, hk2, hm2⟩ := parseKey_shape n2 m2 k h2
  have hd : m1.data = m2.data :=
    append_underscore_inj m1.data m2.data p1 p2 hm1 hm2 (hk1 ▸ hk2)
  cases m1
  cases m2
  exact congrArg String.mk hd

theorem writeSlot_parse (e : DirEntry) (k : String) (d : Bool)
    (h : writeSlot e = some (k, d)) :
    ∃ mid, parseKey e.name = some (mid, k) := by
  rcases e with ⟨name, isDir, content⟩
  cases isDir with
  | true => simp [writeSlot] at h
  | false =>
    cases content with
    | none => simp [writeSlot] at h
    | some c =>
      cases hpk : parseKey name with
      | none => simp [writeSlot, hpk] at h
      | some p =>
        obtain ⟨mid, key⟩ := p
        refine ⟨mid, ?_⟩
        by_cases hu : matchUp name
        · simp only [writeSlot, hpk, hu, Bool.false_eq_true, if_neg, if_false,
            if_true, if_pos, Option.some.injEq, Prod.mk.injEq] at h
          rw [h.1]
        · by_cases hd2 : matchDown name
          · simp only [writeSlot, hpk, hu, hd2, Bool.false_eq_true, if_neg,
              if_false, if_true, if_pos, Option.some.injEq, Prod.mk.injEq] at h
            rw [h.1]
          · simp [writeSlot, hpk, hu, hd2] at h

theorem procLook_congr (F1 F2 : String → Option Migration) (e : DirEntry)
    (h : ∀ k, F1 k = F2 k) (j : String) :
    procLook F1 e j = procLook F2 e j := by
  unfold procLook
  cases hw : writeSlot e with
  | none => exact h j
  | some p =>
    obtain ⟨key, dir⟩ := p
    by_cases hj : j = key
    · simp [hj, h key]
    · simp [hj, h j]

theorem procLook_none_write (a : DirEntry) (ha : writeSlot a = none)
    (F : String → Option Migration) (k : String) : procLook F a k = F k := by
  simp [procLook, ha]

theorem procLook_idem (F : String → Option Migration) (e : DirEntry)
    (j : String) :
    procLook (fun k => procLook F e k) e j = procLook F e j := by
  cases hw : writeSlot e with
  | none => rw [procLook_none_write e hw, procLook_none_write e hw]
  | some p =>
    obtain ⟨key, dir⟩ := p
    by_cases hj : j = key
    · subst hj
      cases dir <;> simp [procLook, hw]
    · simp [procLook, hw, hj]

theorem procLook_comm (x y : DirEntry) (h : SlotDisjoint x y)
    (F : String → Option Migration) (j : String) :
    procLook (fun k => procLook F x k) y j =
      procLook (fun k => procLook F y k) x j := by
  by_cases heq : x = y
  · subst heq; rfl
  cases hwx : writeSlot x with
  | none =>
    rw [procLook_congr _ F y (fun k => procLook_none_write x hwx F k) j,
      procLook_none_write x hwx (fun k => procLook F y k) j]
  | some px =>
    cases hwy : writeSlot y with
    | none =>
      rw [procLook_none_write y hwy (fun k => procLook F x k) j,
        procLook_congr _ F x (fun k => procLook_none_write y hwy F k) j]
    | some py =>
      obtain ⟨kx, dx⟩ := px
      obtain ⟨ky, dy⟩ := py
      have hne : (kx, dx) ≠ (ky, dy) := by
        rcases h with h | h | h | h
        · exact absurd hwx (by rw [h]; simp)
        · exact absurd hwy (by rw [h]; simp)
        · intro hp; exact h (by rw [hwx, hwy, hp])
        · exact absurd h heq
      by_cases hk : kx = ky
      · subst hk
        have hdne : dx ≠ dy := fun hd => hne (by rw [hd])
        obtain ⟨mx, hpx⟩ := writeSlot_parse x kx dx hwx
        obtain ⟨my, hpy⟩ := writeSlot_parse y kx dy hwy
        have hmid : mx = my := parseKey_same_key x.name y.name mx my kx hpx hpy
        subst hmid
        by_cases hj : j = kx
        · subst hj
          cases dx <;> cases dy <;> try exact absurd rfl hdne
          · simp [procLook, hwx, hwy, hpx, hpy]
          · simp [procLook, hwx, hwy, hpx, hpy]
        · simp [procLook, hwx, hwy, hj]
      · by_cases hjy : j = ky
        · subst hjy
          simp [procLook, hwx, hwy, hk, Ne.symm hk]
        · by_cases hjx : j = kx
          · subst hjx
            simp [procLook, hwx, hwy, hk, hjy]
          · simp [procLook, hwx, hwy, hjx, hjy]

theorem optMapEquiv_refl : ∀ om : Option MigMap, OptMapEquiv om om
  | none => trivial
  | some _ => fun _ => rfl

theorem optMapEquiv_trans :
    ∀ {a b c : Option MigMap},
      OptMapEquiv a b → OptMapEquiv b c → OptMapEquiv a c
  | none, none, none, _, _ => trivial
  | none, some _, _, h1, _ => h1.elim
  | some _, none, _, h1, _ => h1.elim
  | none, none, some _, _, h2 => h2.elim
  | some _, some _, none, _, h2 => h2.elim
  | some _, some _, some _, h1, h2 => fun k => (h1 k).trans (h2 k)

theorem slotDisjoint_symm : Symmetric SlotDisjoint := by
  intro a b h
  rcases h with h | h | h | h
  · exact Or.inr (Or.inl h)
  · exact Or.inl h
  · exact Or.inr (Or.inr (Or.inl (Ne.symm h)))
  · exact Or.inr (Or.inr (Or.inr h.symm))

theorem processEntry_congr (e : DirEntry) (m1 m2 : MigMap)
    (h : ∀ k, lookupM m1 k = lookupM m2 k) :
    OptMapEquiv (processEntry m1 e) (processEntry m2 e) := by
  cases hp : panics e with
  | true =>
    rw [panics_processEntry_none e hp m1, panics_processEntry_none e hp m2]
    trivial
  | false =>
    obtain ⟨m1x, h1⟩ :=
      Option.isSome_iff_exists.mp (processEntry_isSome_of_not_panics e hp m1)
    obtain ⟨m2x, h2⟩ :=
      Option.isSome_iff_exists.mp (processEntry_isSome_of_not_panics e hp m2)
    rw [h1, h2]
    intro k
    rw [lookupM_processEntry e m1 m1x h1 k, lookupM_processEntry e m2 m2x h2 k]
    exact procLook_congr _ _ e h k

theorem buildMap_congr : ∀ (l : List DirEntry) (m1 m2 : MigMap),
    (∀ k, lookupM m1 k = lookupM m2 k) →
      OptMapEquiv (buildMap l m1) (buildMap l m2) := by
  intro l
  induction l with
  | nil => intro m1 m2 h; exact h
  | cons e rest ih =>
    intro m1 m2 h
    have hc := processEntry_congr e m1 m2 h
    cases h1 : processEntry m1 e with
    | none =>
      cases h2 : processEntry m2 e with
      | none => simp only [buildMap, h1, h2]; trivial
      | some m2x => rw [h1, h2] at hc; exact hc.elim
    | some m1x =>
      cases h2 : processEntry m2 e with
      | none => rw [h1, h2] at hc; exact hc.elim
      | some m2x =>
        rw [h1, h2] at hc
        simp only [buildMap, h1, h2]
        exact ih m1x m2x hc

theorem buildFrom_equiv (l : List DirEntry) :
    ∀ {o1 o2 : Option MigMap},
      OptMapEquiv o1 o2 → OptMapEquiv (buildFrom o1 l) (buildFrom o2 l) := by
  intro o1 o2 h
  cases o1 with
  | none =>
    cases o2 with
    | none => trivial
    | some m2 => exact h.elim
  | some m1 =>
    cases o2 with
    | none => exact h.elim
    | some m2 => exact buildMap_congr l m1 m2 h

theorem buildMap_two_then (x y : DirEntry) (l : List DirEntry) (m : MigMap) :
    buildMap (x :: y :: l) m = buildFrom (buildMap [x, y] m) l := by
  cases h1 : processEntry m x with
  | none => simp [buildMap, buildFrom, h1]
  | some m1 =>
    cases h2 : processEntry m1 y with
    | none => simp [buildMap, buildFrom, h1, h2]
    | some m2 => simp [buildMap, buildFrom, h1, h2]

theorem processEntry_comm (x y : DirEntry) (h : SlotDisjoint x y) (m : MigMap) :
    OptMapEquiv (buildMap [x, y] m) (buildMap [y, x] m) := by
  cases hpx : panics x with
  | true =>
    have hx := panics_processEntry_none x hpx
    have hL : buildMap [x, y] m = none := by simp [buildMap, hx m]
    have hR : buildMap [y, x] m = none := by
      cases h1 : processEntry m y with
      | none => simp [buildMap, h1]
      | some m1 => simp [buildMap, h1, hx m1]
    rw [hL, hR]
    trivial
  | false =>
    cases hpy : panics y with
    | true =>
      have hy := panics_processEntry_none y hpy
      have hL : buildMap [x, y] m = none := by
        cases h1 : processEntry m x with
        | none => simp [buildMap, h1]
        | some m1 => simp [buildMap, h1, hy m1]
      have hR : buildMap [y, x] m = none := by simp [buildMap, hy m]
      rw [hL, hR]
      trivial
    | false =>
      obtain ⟨m1, h1⟩ :=
        Option.isSome_iff_exists.mp (processEntry_isSome_of_not_panics x hpx m)
      obtain ⟨m2, h2⟩ :=
        Option.isSome_iff_exists.mp (processEntry_isSome_of_not_panics y hpy m1)
      obtain ⟨m3, h3⟩ :=
        Option.isSome_iff_exists.mp (processEntry_isSome_of_not_panics y hpy m)
      obtain ⟨m4, h4⟩ :=
        Option.isSome_iff_exists.mp (processEntry_isSome_of_not_panics x hpx m3)
      have hL : buildMap [x, y] m = some m2 := by simp [buildMap, h1, h2]
      have hR : buildMap [y, x] m = some m4 := by simp [buildMap, h3, h4]
      rw [hL, hR]
      intro j
      rw [lookupM_processEntry y m1 m2 h2 j, lookupM_processEntry x m3 m4 h4 j]
      rw [procLook_congr _ _ y (lookupM_processEntry x m m1 h1) j,
        procLook_congr _ _ x (lookupM_processEntry y m m3 h3) j]
      exact procLook_comm x y h (lookupM m) j

theorem buildMap_perm {l1 l2 : List DirEntry} (p : l1.Perm l2) :
    l1.Pairwise SlotDisjoint →
      ∀ m, OptMapEquiv (buildMap l1 m) (buildMap l2 m) := by
  induction p with
  | nil => intro _ m; exact optMapEquiv_refl _
  | cons x p ih =>
    intro hp m
    have hp2 := (List.pairwise_cons.mp hp).2
    cases hx : processEntry m x with
    | none => simp only [buildMap, hx]; trivial
    | some m1 => simpa only [buildMap, hx] using ih hp2 m1
  | swap x y l =>
    intro hp m
    have hxy : SlotDisjoint y x :=
      (List.pairwise_cons.mp hp).1 x (List.mem_cons_self x l)
    rw [buildMap_two_then y x l m, buildMap_two_then x y l m]
    exact buildFrom_equiv l (processEntry_comm y x hxy m)
  | trans p1 p2 ih1 ih2 =>
    intro hp m
    have hp2 := (p1.pairwise_iff (fun h => slotDisjoint_symm h)).mp hp
    exact optMapEquiv_trans (ih1 hp m) (ih2 hp2 m)

/-- C5 (amended): the pairing step is idempotent per entry, and whenever no
two distinct artifacts write the same (key, direction) slot — at most one
forward and one backward artifact per grouping key — the resulting mapping
does not depend on the order in which the folder entries are iterated; the
forward artifact populates migrationSQL, the backward artifact populates
rollbackSQL, and both directions for the same key converge into a single
unit. When two distinct artifacts share both key and direction, the later
entry overwrites the earlier one and the order does matter. -/
theorem getMigrations_pairing_invariance :
    (∀ (m : MigMap) (e : DirEntry),
        OptMapEquiv (buildMap [e, e] m) (buildMap [e] m)) ∧
      (∀ l1 l2 : List DirEntry, l1.Perm l2 → l1.Pairwise SlotDisjoint →
          OptMapEquiv (getMigrations l1) (getMigrations l2)) ∧
      getMigrations
          [⟨"1_a_up.sql", false, some ("A")⟩,
           ⟨"1_a_down.sql", false, some ("R")⟩] =
        some [("1_a", ⟨"1", "", "A", "R"⟩)] ∧
      getMigrations
          [⟨"1_a_down.sql", false, some ("R")⟩,
           ⟨"1_a_up.sql", false, some ("A")⟩] =
        some [("1_a", ⟨"1", "", "A", "R"⟩)] := by
  refine ⟨?_, ?_, by decide, by decide⟩
  · intro m e
    cases hp : panics e with
    | true =>
      have he := panics_processEntry_none e hp
      have hL : buildMap [e, e] m = none := by simp [buildMap, he m]
      have hR : buildMap [e] m = none := by simp [buildMap, he m]
      rw [hL, hR]
      trivial
    | false =>
      obtain ⟨m1, h1⟩ :=
        Option.isSome_iff_exists.mp (processEntry_isSome_of_not_panics e hp m)
      obtain ⟨m2, h2⟩ :=
        Option.isSome_iff_exists.mp (processEntry_isSome_of_not_panics e hp m1)
      have hL : buildMap [e, e] m = some m2 := by simp [buildMap, h1, h2]
      have hR : buildMap [e] m = some m1 := by simp [buildMap, h1]
      rw [hL, hR]
      intro j
      rw [lookupM_processEntry e m1 m2 h2 j,
        procLook_congr _ _ e (lookupM_processEntry e m m1 h1) j,
        procLook_idem (lookupM m) e j, ← lookupM_processEntry e m m1 h1 j]
  · intro l1 l2 p hp
    exact buildMap_perm p hp []

/-- Witness for C5: a forward and a backward artifact of the same key,
discovered in either order, yield the same mapping. -/
theorem getMigrations_pairing_invariance_witness :
    OptMapEquiv
      (getMigrations [⟨"1_a_up.sql", false, some ("A")⟩,
        ⟨"1_a_down.sql", false, some ("R")⟩])
      (getMigrations [⟨"1_a_down.sql", false, some ("R")⟩,
        ⟨"1_a_up.sql", false, some ("A")⟩]) :=
  getMigrations_pairing_invariance.2.1 _ _ (by decide) (by decide)

/-- C5 counterexample: two forward artifacts with the same grouping key
(1_a_up.sql and 1_a_b_up.sql) make the resulting mapping depend on the
iteration order: whichever is processed last overwrites the forward body. -/
theorem getMigrations_order_dependent_cex :
    getMigrations
        [⟨"1_a_up.sql", false, some ("A")⟩,
         ⟨"1_a_b_up.sql", false, some ("B")⟩] =
      some [("1_a", ⟨"1", "", "B", ""⟩)] ∧
      getMigrations
          [⟨"1_a_b_up.sql", false, some ("B")⟩,
           ⟨"1_a_up.sql", false, some ("A")⟩] =
        some [("1_a", ⟨"1", "", "A", ""⟩)] ∧
      ¬ OptMapEquiv
          (getMigrations [⟨"1_a_up.sql", false, some ("A")⟩,
            ⟨"1_a_b_up.sql", false, some ("B")⟩])
          (getMigrations [⟨"1_a_b_up.sql", false, some ("B")⟩,
            ⟨"1_a_up.sql", false, some ("A")⟩]) := by
  refine ⟨by decide, by decide, ?_⟩
  intro h
  rw [(by decide : getMigrations
        [⟨"1_a_up.sql", false, some ("A")⟩,
         ⟨"1_a_b_up.sql", false, some ("B")⟩] =
      some [("1_a", ⟨"1", "", "B", ""⟩)]),
    (by decide : getMigrations
        [⟨"1_a_b_up.sql", false, some ("B")⟩,
         ⟨"1_a_up.sql", false, some ("A")⟩] =
      some [("1_a", ⟨"1", "", "A", ""⟩)])] at h
  exact absurd (h ("1_a")) (by decide)

end MigHandler
